import Mathlib

/-!
Verification of the KEGG retrieval pipeline (scripts/helpers/utils.py,
scripts/get_enzymes.py, scripts/get_sequences.py, scripts/get_pathways.py).

Raw response text is modelled as `List Char`.  Each Python regular
expression used by the scripts is small and anchored enough that its
`search`/`findall`/`sub` behaviour on arbitrary input is captured by a
direct recursive scanner; every scanner below is derived from the concrete
pattern, mirroring the leftmost-match and greedy-with-backtracking
semantics of the `re` module for that particular pattern.  Character
classes (`\d`, `\s`, `[A-Z]`) are interpreted over ASCII, as in every text
the upstream service produces.  Python exceptions (the `AttributeError`
raised by calling `.groups()` on a failed match) are modelled with
`Except Unit`.
-/

namespace Kegg

abbrev Text := List Char

/-- An HTTP response as the scripts observe it: status code and body text. -/
structure Resp where
  status : Nat
  text : Text
deriving DecidableEq

/-- The `Sequence` dataclass of get_sequences.py: an (organism, id) work item. -/
structure Seq where
  organism : Text
  id : Text
deriving DecidableEq

/-- ASCII uppercase letter, the `[A-Z]` character class. -/
def upperAZ (c : Char) : Bool := 'A' ≤ c && c ≤ 'Z'

/-- Character class `[\d .-]` of REGEX_EC_NUMBERS in helpers/utils.py. -/
def ecClass (c : Char) : Bool := c.isDigit || c == ' ' || c == '.' || c == '-'

/-- Character class `[A-Z\n]` of REGEX_FASTA's second group. -/
def fastaClass (c : Char) : Bool := upperAZ c || c == '\n'

/-- `needle.take n = hay` style test: does `t` start with `p`? -/
def startsWithText (p t : Text) : Bool := t.take p.length == p

/-- Python's `p in t` substring test. -/
def hasSub (p : Text) : Text → Bool
  | [] => p.isEmpty
  | c :: cs => startsWithText p (c :: cs) || hasSub p cs

/-- Python's `str.split(sep)` for a single-character separator: splits at
every occurrence, keeping empty pieces (`"".split` gives `[""]`). -/
def splitOn (sep : Char) : Text → List Text
  | [] => [[]]
  | c :: cs =>
    if c = sep then [] :: splitOn sep cs
    else
      match splitOn sep cs with
      | [] => [[c]]
      | l :: ls => (c :: l) :: ls

/-- The 4-character lookbehind `[EC:` of REGEX_EC_NUMBERS, reversed. -/
def revMarker : Text := [':', 'C', 'E', '[']

/-- `re.findall` scanner for `REGEX_EC_NUMBERS = (?<=\[EC:)([\d .-]+)(?=])`
(helpers/utils.py line 9).  The first argument is the already-consumed
prefix, reversed, giving the 4-character lookbehind window; the matched
run is maximal because `]` is not in the class, so no backtracking on the
greedy `+` can produce a different match, and no later match can start
inside a match (none of `[EC:` is a class character), so advancing one
character at a time visits exactly the matches `re.findall` returns. -/
def ecScan : Text → Text → List Text
  | _, [] => []
  | h, c :: cs =>
    (if h.take 4 = revMarker then
      if (c :: cs).takeWhile ecClass ≠ [] ∧
          ((c :: cs).dropWhile ecClass).head? = some ']' then
        [(c :: cs).takeWhile ecClass]
      else []
    else []) ++ ecScan (c :: h) cs

/-- `REGEX_EC_NUMBERS.findall(text)`. -/
def findallEc (t : Text) : List Text := ecScan [] t

/-- `sorted(list(set(REGEX_EC_NUMBERS.findall(text))))`, the extraction in
fetch_pathway / _get_pathway_from_cache (get_enzymes.py lines 93, 130). -/
def fetchPathwayEc (t : Text) : List Text :=
  List.insertionSort (· ≤ ·) (findallEc t).dedup

/-- Maximal text consumable by the `(.|\n )+` body of the section regex
produced by get_kegg_section_regex: any non-newline character, or a
newline that is immediately followed by a space. -/
def sectionTok : Text → Text
  | [] => []
  | '\n' :: ' ' :: rest => '\n' :: ' ' :: sectionTok rest
  | '\n' :: _ => []
  | c :: cs => c :: sectionTok cs

/-- One attempt of the section regex starting right after the section
keyword: greedy body, then the `(?=\n[A-Z]+)` lookahead.  Only the maximal
body can satisfy the lookahead (an inner newline of the body is followed
by a space, never by `[A-Z]`), so backtracking is not needed. -/
def sectionTry (after : Text) : Option Text :=
  let body := sectionTok after
  if body = [] then none
  else
    match after.drop body.length with
    | '\n' :: u :: _ => if upperAZ u then some body else none
    | _ => none

/-- `re.search` for `get_kegg_section_regex(sec) = (?<=sec)(.|\n )+(?=\n[A-Z]+)`
(helpers/utils.py line 34): leftmost occurrence of the keyword whose
following text admits a body and lookahead. -/
def sectionSearch (sec : Text) : Text → Option Text
  | [] => none
  | c :: cs =>
    if (c :: cs).take sec.length = sec then
      match sectionTry ((c :: cs).drop sec.length) with
      | some b => some b
      | none => sectionSearch sec cs
    else sectionSearch sec cs

/-- `re.search` for `REGEX_FASTA = >(.+)\n([A-Z\n]+)` (helpers/utils.py
line 8), returning the two groups.  Group 1 must stop at the first newline
after `>` because `.` cannot match a newline, and group 2 is the maximal
nonempty `[A-Z\n]` run, unconstrained on the right. -/
def fastaSearch : Text → Option (Text × Text)
  | [] => none
  | c :: cs =>
    if c = '>' then
      let hdr := cs.takeWhile (fun d => d ≠ '\n')
      match cs.drop hdr.length with
      | '\n' :: rest =>
        let body := rest.takeWhile fastaClass
        if hdr ≠ [] ∧ body ≠ [] then some (hdr, body) else fastaSearch cs
      | _ => fastaSearch cs
    else fastaSearch cs

/-- `re.search` for `([A-Z]+): (.+)` applied to one line of the GENES
section (get_sequences.py line 264): leftmost uppercase run immediately
followed by a colon, a space, and at least one further character.
Backtracking inside `[A-Z]+` cannot help because `:` is not uppercase. -/
def geneRowSearch : Text → Option (Text × Text)
  | [] => none
  | c :: cs =>
    let run := (c :: cs).takeWhile upperAZ
    if run ≠ [] then
      match (c :: cs).drop run.length with
      | ':' :: ' ' :: d :: ds => some (run, d :: ds)
      | _ => geneRowSearch cs
    else geneRowSearch cs

/-- `re.sub(r"\(.+\)", "", line)` (get_sequences.py lines 265, 268).  The
greedy `.+` makes a single match run from the first `(` that has a `)` at
least two positions later up to the last `)` of the line; the remainder
contains no further match (all `(` left are after all `)` left). -/
def parenSub (l : Text) : Text :=
  match l.findIdx? (· = '(') with
  | none => l
  | some i =>
    match l.reverse.findIdx? (· = ')') with
    | none => l
    | some rj =>
      let j := l.length - 1 - rj
      if i + 2 ≤ j then l.take i ++ l.drop (j + 1) else l

/-- The `GENES` keyword (REGEX_GENES_SECTION of get_sequences.py). -/
def genesKw : Text := ['G', 'E', 'N', 'E', 'S']

/-- Sequential collection of per-item `Except` results: the first raised
exception aborts the whole collection, as a Python exception raised in a
loop iteration (or inside an `aiometer` task) aborts the enclosing
computation. -/
def exMapM (f : α → Except Unit β) : List α → Except Unit (List β)
  | [] => .ok []
  | x :: xs =>
    match f x with
    | .error e => .error e
    | .ok y =>
      match exMapM f xs with
      | .error e => .error e
      | .ok ys => .ok (y :: ys)

/-- `parse_genes(ec_number, text)` (get_sequences.py lines 255-271).  A
missing GENES section yields `[]`; a section line that the gene-row regex
does not match makes `.groups()` raise, modelled as `Except.error ()`. -/
def parseGenes (ec : Text) (text : Text) : Except Unit (List (List Text)) :=
  match sectionSearch genesKw text with
  | none => .ok []
  | some body =>
    (exMapM (fun line =>
      match geneRowSearch line with
      | none => Except.error ()
      | some (org, geneList) =>
        Except.ok ((splitOn ' ' (parenSub geneList)).map
          fun g => [ec, org.map Char.toLower, g])) (splitOn '\n' body)).map
      List.flatten

/-- `fetch_with_retry` (helpers/utils.py lines 12-27), made explicit over
the stream of responses the server would return to the successive `get`
calls, the value of `random()`, and a fuel bound standing in for the
unbounded `while` loop.  Returns the delivered response together with the
list of sleep durations, in order. -/
def fetchRetryAux (rs : Nat → Resp) : Nat → ℚ → List ℚ → Nat → Option (Resp × List ℚ)
  | i, _, log, 0 =>
    if (rs i).status = 403 then none else some (rs i, log.reverse)
  | i, s, log, fuel + 1 =>
    if (rs i).status = 403 then fetchRetryAux rs (i + 1) (2 * s) (s :: log) fuel
    else some (rs i, log.reverse)

/-- `fetch_with_retry` entry point: first request is `rs 0`, the initial
backoff is `4 + random() * 2`. -/
def fetchWithRetry (rs : Nat → Resp) (rand : ℚ) (fuel : Nat) : Option (Resp × List ℚ) :=
  fetchRetryAux rs 0 (4 + rand * 2) [] fuel

/-- The content-validity check of fetch_enzyme (get_sequences.py lines
130-135): status 200, body starts with `ENTRY`, body matches `///\s+$`
(ends with `///` followed by whitespace), and contains the EC number. -/
def tripleSlashEnd (t : Text) : Bool :=
  let r := t.reverse
  let w := r.takeWhile Char.isWhitespace
  decide (w ≠ []) && ((r.drop w.length).take 3 == ['/', '/', '/'])

def enzymeValid (ec : Text) (r : Resp) : Bool :=
  (r.status == 200) && startsWithText ['E', 'N', 'T', 'R', 'Y'] r.text
    && tripleSlashEnd r.text && hasSub ec r.text

/-- The `for _ in range(3)` retry loop shared by fetch_enzyme and
fetch_sequence: attempt `rs used`, stop at the first response passing
`valid`, give up when the fuel (3 at the call sites) is exhausted.
Returns the number of fetches performed and the accepted response. -/
def fetchTry (valid : Resp → Bool) (rs : Nat → Resp) : Nat → Nat → Nat × Option Resp
  | used, 0 => (used, none)
  | used, fuel + 1 =>
    if valid (rs used) then (used + 1, some (rs used))
    else fetchTry valid rs (used + 1) fuel

/-- `fetch_enzyme` (get_sequences.py lines 120-156) without the I/O of the
cache write: three attempts, then `None` (`.ok none`); on an accepted
response the genes are parsed, and a parse error escapes uncaught. -/
def fetchEnzyme (ec : Text) (rs : Nat → Resp) :
    Nat × Except Unit (Option (List (List Text))) :=
  match fetchTry (enzymeValid ec) rs 0 3 with
  | (n, none) => (n, .ok none)
  | (n, some r) => (n, (parseGenes ec r.text).map some)

/-- The content-validity check of fetch_sequence (lines 171-175): the
FASTA regex must match (else `.groups()` raises `AttributeError`, caught
by the loop) and both groups must be nonempty. -/
def seqValid (r : Resp) : Bool :=
  match fastaSearch r.text with
  | some (i, s) => decide (i ≠ []) && decide (s ≠ [])
  | none => false

/-- `re.sub("[^A-Z]+", '', seq)` (get_sequences.py line 193). -/
def stripNonUpper (s : Text) : Text := s.filter upperAZ

/-- `fetch_sequence` (get_sequences.py lines 159-195) without the cache
write: three attempts, then `None`; an accepted response yields the
work item, the FASTA header and the sequence cleaned of non-uppercase
characters. -/
def fetchSequence (sq : Seq) (rs : Nat → Resp) : Nat × Option (Seq × Text × Text) :=
  match fetchTry seqValid rs 0 3 with
  | (n, none) => (n, none)
  | (n, some r) =>
    match fastaSearch r.text with
    | some (i, s) => (n, some (sq, i, stripNonUpper s))
    | none => (n, none)

/-- `_get_enzyme_from_cache` (get_sequences.py lines 222-234); the cache
file's presence and contents are passed in as `file`. -/
def getEnzymeFromCache (file : Option Text) (ec : Text) :
    Except Unit (Option (List (List Text))) :=
  match file with
  | none => .ok none
  | some text => (parseGenes ec text).map some

/-- `_get_sequence_from_cache` (get_sequences.py lines 237-252).  Note: on
a hit the FASTA groups are returned as matched, without the `re.sub`
cleaning the live path applies; a failed FASTA match raises
(`.groups()` on `None`), modelled as `Except.error ()`. -/
def getSequenceFromCache (file : Option Text) (sq : Seq) :
    Except Unit (Option (Seq × Text × Text)) :=
  match file with
  | none => .ok none
  | some text =>
    match fastaSearch text with
    | none => .error ()
    | some (i, s) => .ok (some (sq, i, s))

/-- The enzyme-stage aggregation of get_sequences.py main (lines 60-69):
collect per-item results, drop the `None`s (`if x is not None`), flatten.
An uncaught exception in any item aborts the run. -/
def runEnzymes (f : α → Except Unit (Option (List β))) (items : List α) :
    Except Unit (List β) :=
  (exMapM f items).map fun rs => (rs.filterMap id).flatten

/-- `fetch_cache` (get_sequences.py lines 198-219): look every element up,
return the misses (elements whose lookup gave `None`) and the hits. -/
def fetchCache (lookup : α → Except Unit (Option β)) (elems : List α) :
    Except Unit (List α × List β) :=
  (exMapM lookup elems).map fun rs =>
    ((elems.zip rs).filterMap fun er => if er.2.isNone then some er.1 else none,
     rs.filterMap id)

/-- Cache path computed by the save branch of fetch_enzyme (get_sequences.py
lines 142-147): `cache_path.joinpath(*ec_number.split(".")[:-1]) / f"{ec_number}.txt"`,
as a list of path segments appended to the root segments. -/
def fetchEnzymeSavePath (root : List Text) (ec : Text) : List Text :=
  root ++ (splitOn '.' ec).dropLast ++ [ec ++ ".txt".toList]

/-- Cache path computed by `_get_enzyme_from_cache` (get_sequences.py lines
226-227): `cache_path.joinpath(*ec_number.split(".")[:-1]) / f"{ec_number}.txt"`. -/
def enzymeLookupPath (root : List Text) (ec : Text) : List Text :=
  root ++ (splitOn '.' ec).dropLast ++ [ec ++ ".txt".toList]

/-- Render a segment list the way `pathlib` renders a path rooted at the
first segment: later segments joined by `/`. -/
def renderPath (segs : List Text) : Text := (segs.intersperse "/".toList).flatten

/-- The body of the merge loop of get_sequences.py main (lines 98-103):
extend a gene row with the sequence data found for `(gene[1], gene[2])`,
or leave it unchanged (the miss is only logged). -/
def mergeRow (find : Text → Text → Option (Text × Text)) (g : List Text) : List Text :=
  match find (g.getD 1 []) (g.getD 2 []) with
  | some (d, s) => g ++ [d, s]
  | none => g

/-- `genes_plain` and the merge loop of get_sequences.py main (lines 69,
94-103, 117): concatenate cached and fetched gene rows, extend each row
with the sequence data found for `(gene[1], gene[2])` if any, and hand the
rows to the CSV writer in exactly that order (no sort). -/
def seqJobOutput (cachedGenes apiGenes : List (List (List Text)))
    (find : Text → Text → Option (Text × Text)) : List (List Text) :=
  ((cachedGenes ++ apiGenes).flatten).map (mergeRow find)

/-- `enzymes_plain` of get_enzymes.py main (lines 64-67): concatenate
cached and fetched rows and sort the flat list (Python's `sorted`, i.e.
lexicographic order on the row lists). -/
def enzJobOutput (cached api : List (List (List Text))) : List (List Text) :=
  List.insertionSort (· ≤ ·) ((cached ++ api).flatten)

/-- The comparison induced by `key=lambda x: (x[0], x[1])` in
get_pathways.py main: Python compares the key tuples lexicographically,
which for two string fields is the lexicographic order on the two-element
lists. -/
def pathwayKeyLe (x y : List Text) : Prop :=
  [x.getD 0 [], x.getD 1 []] ≤ [y.getD 0 [], y.getD 1 []]

instance : DecidableRel pathwayKeyLe := fun x y =>
  inferInstanceAs (Decidable ([x.getD 0 [], x.getD 1 []] ≤ [y.getD 0 [], y.getD 1 []]))

instance : IsTotal (List Text) pathwayKeyLe := ⟨fun _ _ => le_total _ _⟩

instance : IsTrans (List Text) pathwayKeyLe := ⟨fun _ _ _ => le_trans⟩

/-- `pathways_plain` of get_pathways.py main:
`sorted(list(chain.from_iterable(pathways)), key=lambda x: (x[0], x[1]))`
over the per-organism row lists produced by fetch_pathways. -/
def pathwaysJobOutput (perOrganism : List (List (List Text))) : List (List Text) :=
  List.insertionSort pathwayKeyLe perOrganism.flatten

/-- The comparison induced by `key=lambda x: x[0]` in get_organisms.py
main: rows compare by their first field. -/
def organismKeyLe (x y : List Text) : Prop := x.getD 0 [] ≤ y.getD 0 []

instance : DecidableRel organismKeyLe := fun x y =>
  inferInstanceAs (Decidable (x.getD 0 [] ≤ y.getD 0 []))

instance : IsTotal (List Text) organismKeyLe := ⟨fun _ _ => le_total _ _⟩

instance : IsTrans (List Text) organismKeyLe := ⟨fun _ _ _ => le_trans⟩

/-- The organisms job output of get_organisms.py main:
`organisms = sorted(organisms, key=lambda x: x[0])` over the rows split
from the list endpoint's response. -/
def organismsJobOutput (rows : List (List Text)) : List (List Text) :=
  List.insertionSort organismKeyLe rows

/-! ## Helper lemmas -/

lemma fetchRetryAux_no403 (rs : Nat → Resp) :
    ∀ (fuel i : Nat) (s : ℚ) (log : List ℚ) (r : Resp) (out : List ℚ),
      fetchRetryAux rs i s log fuel = some (r, out) → r.status ≠ 403 := by
  intro fuel
  induction fuel with
  | zero =>
    intro i s log r out h
    by_cases h403 : (rs i).status = 403
    · simp [fetchRetryAux, h403] at h
    · simp [fetchRetryAux, h403] at h
      rw [← h.1]
      exact h403
  | succ n ih =>
    intro i s log r out h
    by_cases h403 : (rs i).status = 403
    · rw [fetchRetryAux, if_pos h403] at h
      exact ih _ _ _ _ _ h
    · rw [fetchRetryAux, if_neg h403] at h
      obtain ⟨h1, -⟩ := Prod.mk.injEq .. ▸ Option.some.injEq .. ▸ h
      rw [← h1]
      exact h403

lemma fetchTry_all_fail (valid : Resp → Bool) (rs : Nat → Resp) :
    ∀ (fuel used : Nat), (∀ i, i < fuel → valid (rs (used + i)) = false) →
      fetchTry valid rs used fuel = (used + fuel, none) := by
  intro fuel
  induction fuel with
  | zero => intro used _; rfl
  | succ n ih =>
    intro used h
    have h0 : valid (rs used) = false := by simpa using h 0 (Nat.succ_pos n)
    rw [fetchTry, h0]
    simp only [Bool.false_eq_true, if_false]
    rw [ih (used + 1) fun i hi => by
      have := h (i + 1) (by omega)
      rwa [show used + (i + 1) = used + 1 + i by omega] at this]
    congr 1
    omega

lemma runEnzymes_cons (f : α → Except Unit (Option (List β))) (a : α) (l : List α) :
    runEnzymes f (a :: l) =
      match f a with
      | .error e => .error e
      | .ok o => (runEnzymes f l).map (o.getD [] ++ ·) := by
  cases hfa : f a with
  | error e => simp [runEnzymes, exMapM, hfa, Except.map]
  | ok o =>
    cases hrest : exMapM f l with
    | error e => simp [runEnzymes, exMapM, hfa, hrest, Except.map]
    | ok rs =>
      cases o <;>
        simp [runEnzymes, exMapM, hfa, hrest, Except.map, List.filterMap_cons]

lemma exceptMap_id (e : Except Unit (List β)) : e.map (fun x => x) = e := by
  cases e <;> rfl

lemma runEnzymes_skip_none (f : α → Except Unit (Option (List β))) (x : α)
    (hx : f x = .ok none) :
    ∀ xs ys : List α, runEnzymes f (xs ++ x :: ys) = runEnzymes f (xs ++ ys) := by
  intro xs
  induction xs with
  | nil =>
    intro ys
    simp only [List.nil_append, runEnzymes_cons, hx]
    have : (Option.getD (α := List β) none [] ++ ·) = fun r => r := by
      funext r; simp
    rw [this, exceptMap_id]
  | cons a as ih =>
    intro ys
    simp only [List.cons_append, runEnzymes_cons, ih ys]

/-! ## The EC findall characterisation (C3) -/

/-- The marker `[EC:` occupies the four positions just before position `j`
of `rest`, where `h` is the reversed text preceding `rest`. -/
def markerAt (h rest : Text) (j : Nat) : Prop :=
  ((rest.take j).reverse ++ h).take 4 = revMarker

/-- An EC-annotation occurrence inside `rest` (with reversed left context
`h`): a nonempty all-class run at some position `j` whose four preceding
characters are `[EC:` and whose following character is `]`. -/
def OccurFrom (h rest s : Text) : Prop :=
  s ≠ [] ∧ (∀ c ∈ s, ecClass c = true) ∧
    ∃ j b, markerAt h rest j ∧ rest.drop j = s ++ ']' :: b

/-- Spec-side characterisation of a bracketed EC annotation: `s` is
nonempty, all its characters are in the `[\d .-]` class, and
`[EC:` ++ s ++ `]` occurs as a substring of `t`. -/
def EcOccur (t s : Text) : Prop :=
  s ≠ [] ∧ (∀ c ∈ s, ecClass c = true) ∧
    ∃ a b, t = a ++ '[' :: 'E' :: 'C' :: ':' :: (s ++ ']' :: b)

lemma takeWhile_class_append (s b : Text) (hs : ∀ c ∈ s, ecClass c = true) :
    (s ++ ']' :: b).takeWhile ecClass = s := by
  induction s with
  | nil =>
    rw [List.nil_append, List.takeWhile_cons, show ecClass ']' = false from rfl]
    rfl
  | cons c cs ih =>
    rw [List.cons_append, List.takeWhile_cons, hs c (List.mem_cons_self c cs)]
    simp only [if_true]
    rw [ih fun x hx => hs x (List.mem_cons_of_mem c hx)]

lemma dropWhile_class_append (s b : Text) (hs : ∀ c ∈ s, ecClass c = true) :
    (s ++ ']' :: b).dropWhile ecClass = ']' :: b := by
  induction s with
  | nil =>
    rw [List.nil_append, List.dropWhile_cons, show ecClass ']' = false from rfl]
    rfl
  | cons c cs ih =>
    rw [List.cons_append, List.dropWhile_cons, hs c (List.mem_cons_self c cs)]
    simp only [if_true]
    exact ih fun x hx => hs x (List.mem_cons_of_mem c hx)

lemma markerAt_zero (h rest : Text) : markerAt h rest 0 ↔ h.take 4 = revMarker := by
  simp [markerAt]

lemma markerAt_succ (h : Text) (c : Char) (cs : Text) (j : Nat) :
    markerAt h (c :: cs) (j + 1) ↔ markerAt (c :: h) cs j := by
  simp [markerAt, List.take_succ_cons, List.reverse_cons, List.append_assoc]

lemma occurFrom_cons (h : Text) (c : Char) (cs s : Text) :
    OccurFrom h (c :: cs) s ↔
      (h.take 4 = revMarker ∧ s ≠ [] ∧ (∀ x ∈ s, ecClass x = true)
        ∧ ∃ b, c :: cs = s ++ ']' :: b)
      ∨ OccurFrom (c :: h) cs s := by
  constructor
  · rintro ⟨hne, hcl, j, b, hm, hd⟩
    cases j with
    | zero => exact Or.inl ⟨(markerAt_zero h (c :: cs)).mp hm, hne, hcl, b, hd⟩
    | succ j => exact Or.inr ⟨hne, hcl, j, b, (markerAt_succ h c cs j).mp hm, hd⟩
  · rintro (⟨hm, hne, hcl, b, hd⟩ | ⟨hne, hcl, j, b, hm, hd⟩)
    · exact ⟨hne, hcl, 0, b, (markerAt_zero h (c :: cs)).mpr hm, hd⟩
    · exact ⟨hne, hcl, j + 1, b, (markerAt_succ h c cs j).mpr hm, hd⟩

lemma ecScan_mem : ∀ rest h s : Text, s ∈ ecScan h rest ↔ OccurFrom h rest s := by
  intro rest
  induction rest with
  | nil =>
    intro h s
    simp only [ecScan, List.not_mem_nil, false_iff]
    rintro ⟨hne, -, j, b, -, hd⟩
    rw [List.drop_nil] at hd
    exact List.cons_ne_nil ']' b (List.append_eq_nil.mp hd.symm).2
  | cons c cs ih =>
    intro h s
    rw [ecScan, List.mem_append, ih (c :: h) s, occurFrom_cons]
    refine or_congr ?_ Iff.rfl
    by_cases hmk : h.take 4 = revMarker
    · rw [if_pos hmk]
      by_cases hrun : ((c :: cs).takeWhile ecClass ≠ [] ∧
          ((c :: cs).dropWhile ecClass).head? = some ']')
      · rw [if_pos hrun, List.mem_singleton]
        constructor
        · rintro rfl
          obtain ⟨hne, hhead⟩ := hrun
          refine ⟨hmk, hne, fun x hx => List.mem_takeWhile_imp hx, ?_⟩
          cases hdw : (c :: cs).dropWhile ecClass with
          | nil => rw [hdw] at hhead; exact absurd hhead (by simp)
          | cons d ds =>
            rw [hdw] at hhead
            have hd : d = ']' := by simpa using hhead
            refine ⟨ds, ?_⟩
            conv_lhs => rw [← List.takeWhile_append_dropWhile ecClass (c :: cs)]
            rw [hdw, hd]
        · rintro ⟨-, hne, hcl, b, hb⟩
          rw [hb, takeWhile_class_append s b hcl]
      · rw [if_neg hrun]
        simp only [List.not_mem_nil, false_iff]
        rintro ⟨-, hne, hcl, b, hb⟩
        apply hrun
        rw [hb]
        exact ⟨by rw [takeWhile_class_append s b hcl]; exact hne,
               by rw [dropWhile_class_append s b hcl]; rfl⟩
    · rw [if_neg hmk]
      simp only [List.not_mem_nil, false_iff]
      rintro ⟨h4, -⟩
      exact hmk h4

lemma occurFrom_nil_iff (t s : Text) : OccurFrom [] t s ↔ EcOccur t s := by
  unfold OccurFrom EcOccur
  refine and_congr_right fun _ => and_congr_right fun _ => ?_
  constructor
  · rintro ⟨j, b, hm, hd⟩
    have hm' : (t.take j).reverse.take 4 = revMarker := by
      simpa [markerAt] using hm
    obtain ⟨a, ha⟩ : ∃ a, t.take j = a ++ ['[', 'E', 'C', ':'] := by
      refine ⟨((t.take j).reverse.drop 4).reverse, ?_⟩
      have h1 : (t.take j).reverse = revMarker ++ (t.take j).reverse.drop 4 := by
        conv_lhs => rw [← List.take_append_drop 4 (t.take j).reverse]
        rw [hm']
      calc t.take j = (t.take j).reverse.reverse := (List.reverse_reverse _).symm
        _ = (revMarker ++ (t.take j).reverse.drop 4).reverse := by rw [← h1]
        _ = ((t.take j).reverse.drop 4).reverse ++ revMarker.reverse := by
              rw [List.reverse_append]
        _ = _ := rfl
    refine ⟨a, b, ?_⟩
    calc t = t.take j ++ t.drop j := (List.take_append_drop j t).symm
      _ = (a ++ ['[', 'E', 'C', ':']) ++ (s ++ ']' :: b) := by rw [ha, hd]
      _ = a ++ '[' :: 'E' :: 'C' :: ':' :: (s ++ ']' :: b) := by
            simp [List.append_assoc]
  · rintro ⟨a, b, rfl⟩
    have hassoc : a ++ '[' :: 'E' :: 'C' :: ':' :: (s ++ ']' :: b)
        = (a ++ ['[', 'E', 'C', ':']) ++ (s ++ ']' :: b) := by simp
    refine ⟨a.length + 4, b, ?_, ?_⟩
    · unfold markerAt
      rw [List.append_nil, hassoc, List.take_left' (by simp),
        List.reverse_append, show List.reverse ['[', 'E', 'C', ':'] = revMarker from rfl]
      exact List.take_left' rfl
    · rw [hassoc]
      exact List.drop_left' (by simp)

lemma findallEc_mem (t s : Text) : s ∈ findallEc t ↔ EcOccur t s :=
  (ecScan_mem t [] s).trans (occurFrom_nil_iff t s)

/-! ## Claim theorems -/

/-- Sample cached FASTA response used for the C1 analysis. -/
def fastaSample : Text := ">id\nABC\nDEF\n".toList

/-- Sample sequence work item. -/
def sq0 : Seq := ⟨"hsa".toList, "1".toList⟩

/-- C1: for the (organism, sequence_id) work item `hsa:1` and the raw text
`">id\nABC\nDEF\n"`, byte-identical in cache and in a live response, the
cache-lookup path returns the raw FASTA body `"ABC\nDEF\n"` while the
live-fetch path additionally strips non-uppercase characters and returns
`"ABCDEF"`: the two paths do NOT produce identical records, refuting the
claimed cache/live parity (only the live path applies the
`re.sub("[^A-Z]+", '', seq)` normalisation). -/
theorem c1_cache_live_divergence :
    getSequenceFromCache (some fastaSample) sq0 =
      .ok (some (sq0, "id".toList, "ABC\nDEF\n".toList))
  ∧ fetchSequence sq0 (fun _ => ⟨200, fastaSample⟩) =
      (1, some (sq0, "id".toList, "ABCDEF".toList))
  ∧ ("ABC\nDEF\n".toList : Text) ≠ "ABCDEF".toList :=
  ⟨rfl, rfl, by decide⟩

/-- C2: on the exact input text `"GENES       HSA: 124(ADH1A) 125(ADH1B)\n"`
parse_genes returns `[]`, because the section regex requires a following
line starting with an uppercase section header; and even with such a
header appended, it yields only the single record ("hsa", "124"): the
greedy `\(.+\)` substitution deletes everything from the first `(` to the
last `)`, dropping gene 125.  The claimed result
[("hsa","124"), ("hsa","125")] is produced on neither input. -/
theorem c2_gene_example_diverges :
    parseGenes "1.1.1.1".toList
      "GENES       HSA: 124(ADH1A) 125(ADH1B)\n".toList = .ok []
  ∧ parseGenes "1.1.1.1".toList
      "GENES       HSA: 124(ADH1A) 125(ADH1B)\nDBLINKS".toList =
      .ok [["1.1.1.1".toList, "hsa".toList, "124".toList]] :=
  ⟨rfl, rfl⟩

/-- C3: the EC-number extraction `sorted(list(set(findall(text))))` returns
a lexicographically sorted, duplicate-free list whose members are exactly
the bracketed `[EC:...]` annotations of the input, so the result depends
only on the set of annotations present — it is independent of their order
in the input and of duplicate occurrences. -/
theorem c3_ec_extraction : ∀ t : Text,
    (fetchPathwayEc t).Sorted (· ≤ ·)
  ∧ (fetchPathwayEc t).Nodup
  ∧ (∀ s, s ∈ fetchPathwayEc t ↔ EcOccur t s)
  ∧ ∀ t' : Text, (∀ s, EcOccur t s ↔ EcOccur t' s) →
      fetchPathwayEc t = fetchPathwayEc t' := by
  have hsorted : ∀ t : Text, (fetchPathwayEc t).Sorted (· ≤ ·) := fun t =>
    List.sorted_insertionSort (· ≤ ·) _
  have hnodup : ∀ t : Text, (fetchPathwayEc t).Nodup := fun t =>
    ((List.perm_insertionSort (· ≤ ·) _).nodup_iff).mpr (List.nodup_dedup _)
  have hmem : ∀ t s : Text, s ∈ fetchPathwayEc t ↔ EcOccur t s := by
    intro t s
    rw [fetchPathwayEc, List.mem_insertionSort, List.mem_dedup]
    exact findallEc_mem t s
  intro t
  refine ⟨hsorted t, hnodup t, hmem t, fun t' hext => ?_⟩
  refine List.eq_of_perm_of_sorted ?_ (hsorted t) (hsorted t')
  refine (List.perm_ext_iff_of_nodup (hnodup t) (hnodup t')).mpr fun s => ?_
  rw [hmem t s, hmem t' s]
  exact hext s

/-- A text with two distinct EC annotations, one duplicated, out of order. -/
def ecSampleA : Text := "path [EC:2.7.1.2] x [EC:1.1.1.1] y [EC:1.1.1.1]".toList

/-- A text with the same two EC annotations in the opposite order. -/
def ecSampleB : Text := "[EC:1.1.1.1][EC:2.7.1.2]".toList

/-- C3 witness: concrete instantiation — the two sample texts carry the
same annotation set, so the extraction agrees on them. -/
theorem c3_ec_extraction_witness :
    (fetchPathwayEc ecSampleA).Sorted (· ≤ ·)
  ∧ (fetchPathwayEc ecSampleA).Nodup
  ∧ ("1.1.1.1".toList ∈ fetchPathwayEc ecSampleA ↔ EcOccur ecSampleA "1.1.1.1".toList)
  ∧ fetchPathwayEc ecSampleA = fetchPathwayEc ecSampleB := by
  have hA := c3_ec_extraction ecSampleA
  have hB := c3_ec_extraction ecSampleB
  have hEq : fetchPathwayEc ecSampleA = fetchPathwayEc ecSampleB := by decide
  refine ⟨hA.1, hA.2.1, hA.2.2.1 "1.1.1.1".toList, ?_⟩
  refine hA.2.2.2 ecSampleB fun s => ?_
  rw [← hA.2.2.1 s, ← hB.2.2.1 s, hEq]

/-- C4: when the content-validity check fails on every attempt, fetch_enzyme
and fetch_sequence perform exactly 3 fetches and return no result
(`None`), and in the aggregation a work item whose fetch returned `None`
contributes zero rows: the run over the remaining items is unchanged. -/
theorem c4_bounded_retry :
    (∀ (ec : Text) (rs : Nat → Resp), (∀ i, i < 3 → enzymeValid ec (rs i) = false) →
        fetchEnzyme ec rs = (3, .ok none))
  ∧ (∀ (sq : Seq) (rs : Nat → Resp), (∀ i, i < 3 → seqValid (rs i) = false) →
        fetchSequence sq rs = (3, none))
  ∧ ∀ (f : Nat → Except Unit (Option (List (List Text)))) (xs ys : List Nat) (x : Nat),
      f x = .ok none → runEnzymes f (xs ++ x :: ys) = runEnzymes f (xs ++ ys) := by
  refine ⟨fun ec rs h => ?_, fun sq rs h => ?_, fun f xs ys x hx => ?_⟩
  · have := fetchTry_all_fail (enzymeValid ec) rs 3 0 (by simpa using h)
    unfold fetchEnzyme
    rw [this]
  · have := fetchTry_all_fail seqValid rs 3 0 (by simpa using h)
    unfold fetchSequence
    rw [this]
  · exact runEnzymes_skip_none f x hx xs ys

/-- Responses that always fail both validity checks (HTTP 500, empty body). -/
def rs500 : Nat → Resp := fun _ => ⟨500, []⟩

/-- C4 witness: concrete instantiation of the bounded-retry theorem. -/
theorem c4_bounded_retry_witness :
    fetchEnzyme [] rs500 = (3, .ok none)
  ∧ fetchSequence ⟨[], []⟩ rs500 = (3, none)
  ∧ runEnzymes (fun _ => (.ok none : Except Unit (Option (List (List Text)))))
      ([] ++ 0 :: []) = runEnzymes (fun _ => .ok none) ([] ++ ([] : List Nat)) :=
  ⟨c4_bounded_retry.1 [] rs500 fun _ _ => rfl,
   c4_bounded_retry.2.1 ⟨[], []⟩ rs500 fun _ _ => rfl,
   c4_bounded_retry.2.2 _ [] [] 0 rfl⟩

/-- C5: fetch_with_retry never hands a 403 response to its caller, and on a
response sequence 403, 403, 200 it returns the third response after
exactly two sleeps with log `[4 + 2*random(), 2 * (4 + 2*random())]`: the
first sleep lies in [4, 6) and the second is exactly — hence at least —
double the first, the base delay doubling after every 403. -/
theorem c5_retry_backoff :
    (∀ (rs : Nat → Resp) (rand : ℚ) (fuel : Nat) (r : Resp) (log : List ℚ),
        fetchWithRetry rs rand fuel = some (r, log) → r.status ≠ 403)
  ∧ ∀ (rs : Nat → Resp) (rand : ℚ) (fuel : Nat),
      0 ≤ rand → rand < 1 →
      (rs 0).status = 403 → (rs 1).status = 403 → (rs 2).status = 200 →
      2 ≤ fuel →
      fetchWithRetry rs rand fuel =
        some (rs 2, [4 + rand * 2, 2 * (4 + rand * 2)])
      ∧ 4 ≤ 4 + rand * 2 ∧ 4 + rand * 2 < 6 := by
  constructor
  · intro rs rand fuel r log h
    exact fetchRetryAux_no403 rs fuel 0 _ [] r log h
  · intro rs rand fuel h0 h1 r0 r1 r2 hfuel
    obtain ⟨k, rfl⟩ : ∃ k, fuel = k + 2 := ⟨fuel - 2, by omega⟩
    refine ⟨?_, by linarith, by linarith⟩
    show fetchRetryAux rs 0 (4 + rand * 2) [] (k + 2) = _
    rw [fetchRetryAux, if_pos r0, fetchRetryAux, if_pos r1]
    have hne : (rs 2).status ≠ 403 := by rw [r2]; omega
    cases k with
    | zero => rw [fetchRetryAux, if_neg hne]; rfl
    | succ m => rw [fetchRetryAux, if_neg hne]; rfl

/-- Concrete response stream for the C5 witness: two 403s then a 200. -/
def c5Rs : Nat → Resp := fun i => if i < 2 then ⟨403, []⟩ else ⟨200, []⟩

/-- C5 witness: concrete instantiation of the backoff theorem with
`random() = 1/2`: the sleeps are 5 seconds and 10 seconds. -/
theorem c5_retry_backoff_witness :
    fetchWithRetry c5Rs (1 / 2) 2 =
      some (c5Rs 2, [4 + (1 / 2 : ℚ) * 2, 2 * (4 + (1 / 2 : ℚ) * 2)])
  ∧ 4 ≤ 4 + (1 / 2 : ℚ) * 2 ∧ 4 + (1 / 2 : ℚ) * 2 < 6 :=
  c5_retry_backoff.2 c5Rs (1 / 2) 2 (by norm_num) (by norm_num) rfl rfl rfl
    (le_refl 2)

/-- If some element of the list maps to an exception, the sequential
collection raises (the error type being `Unit`, the raised value is `()`). -/
lemma exMapM_error_of_mem (g : α → Except Unit β) :
    ∀ (l : List α) (x : α), x ∈ l → g x = .error () → exMapM g l = .error () := by
  intro l
  induction l with
  | nil => intro x hx; exact absurd hx (List.not_mem_nil x)
  | cons a as ih =>
    intro x hx hgx
    rcases List.mem_cons.mp hx with rfl | hmem
    · simp [exMapM, hgx]
    · show exMapM g (a :: as) = .error ()
      rw [exMapM]
      cases hga : g a with
      | error e => cases e; rfl
      | ok y => rw [ih x hmem hgx]

/-- C6 (amended): a GENES-section line that the gene-row regex does not
match makes parse_genes raise; the exception escapes fetch_enzyme, which
has no handler around parse_genes, and an exception in any work item
aborts the whole aggregation — no logging-and-skipping of the single item
takes place. -/
theorem c6_parse_error_aborts_run :
    (∀ (ec : Text) (r : Resp) (body : Text),
        sectionSearch genesKw r.text = some body →
        (∃ line ∈ splitOn '\n' body, geneRowSearch line = none) →
        enzymeValid ec r = true →
        parseGenes ec r.text = .error ()
        ∧ (fetchEnzyme ec fun _ => r).2 = .error ())
  ∧ ∀ (f : Text → Except Unit (Option (List (List Text)))) (xs ys : List Text)
      (x : Text), f x = .error () → runEnzymes f (xs ++ x :: ys) = .error () := by
  constructor
  · intro ec r body hsec ⟨line, hmem, hrow⟩ hvalid
    have hparse : parseGenes ec r.text = .error () := by
      simp only [parseGenes, hsec]
      rw [exMapM_error_of_mem _ (splitOn '\n' body) line hmem
        (by simp only [hrow])]
      rfl
    refine ⟨hparse, ?_⟩
    unfold fetchEnzyme
    rw [show fetchTry (enzymeValid ec) (fun _ => r) 0 3 = (1, some r) by
      rw [fetchTry]; simp [hvalid]]
    show (Except.map some (parseGenes ec r.text) : Except Unit _) = .error ()
    rw [hparse]
    rfl
  · intro f xs ys x hx
    unfold runEnzymes
    rw [exMapM_error_of_mem f (xs ++ x :: ys) x
      (List.mem_append_right xs (List.mem_cons_self x ys)) hx]
    rfl

/-- A work item whose KEGG response has a well-formed envelope but a GENES
line that does not match `([A-Z]+): (.+)`. -/
def badEnzymeResp : Resp := ⟨200, "ENTRY 1.1.1.1\nGENES  foo\nREF\n///\n".toList⟩

/-- C6 witness: concrete instantiation of the abort theorem on
`badEnzymeResp`. -/
theorem c6_parse_error_aborts_run_witness :
    parseGenes "1.1.1.1".toList badEnzymeResp.text = .error ()
  ∧ (fetchEnzyme "1.1.1.1".toList fun _ => badEnzymeResp).2 = .error () :=
  c6_parse_error_aborts_run.1 "1.1.1.1".toList badEnzymeResp "  foo".toList rfl
    ⟨"  foo".toList, by decide, rfl⟩ rfl

/-- A work item with a well-formed response whose GENES line parses. -/
def goodEnzymeResp : Resp := ⟨200, "ENTRY 2.2.2.2\nGENES  HSA: 11\nREF\n///\n".toList⟩

/-- The per-item fetch operation of the C6 counterexample run: work item
"1.1.1.1" receives the malformed response, every other item the good one. -/
def c6Fetcher (ec : Text) : Except Unit (Option (List (List Text))) :=
  (fetchEnzyme ec fun _ =>
    if ec = "1.1.1.1".toList then badEnzymeResp else goodEnzymeResp).2

/-- C6 counterexample: with the malformed item present the whole run
raises instead of skipping that item — the remaining work item's rows,
which the run produces when the malformed item is absent, are lost. -/
theorem c6_counterexample :
    runEnzymes c6Fetcher ["2.2.2.2".toList, "1.1.1.1".toList] = .error ()
  ∧ runEnzymes c6Fetcher ["2.2.2.2".toList] =
      .ok [["2.2.2.2".toList, "hsa".toList, "11".toList]] :=
  ⟨rfl, rfl⟩

/-- C10: if the cache file for a sequence work item exists but its text
does not match the FASTA regex, _get_sequence_from_cache raises an
unhandled `AttributeError` (modelled `.error ()`) instead of reporting a
miss, the exception aborts the whole cache pass, and — in contrast — the
live-fetch path catches the same failure, retries 3 times and returns
`None` without raising. -/
theorem c10_malformed_cache_aborts :
    ∀ (text : Text) (sq : Seq), fastaSearch text = none →
      getSequenceFromCache (some text) sq = .error ()
      ∧ (∀ st : Nat, fetchSequence sq (fun _ => ⟨st, text⟩) = (3, none))
      ∧ ∀ (lookup : Seq → Except Unit (Option (Seq × Text × Text)))
          (xs ys : List Seq), lookup sq = .error () →
          fetchCache lookup (xs ++ sq :: ys) = .error () := by
  intro text sq hfasta
  refine ⟨?_, fun st => ?_, fun lookup xs ys hl => ?_⟩
  · simp only [getSequenceFromCache, hfasta]
  · have hv : ∀ i, i < 3 → seqValid ((fun _ => (⟨st, text⟩ : Resp)) i) = false := by
      intro i _
      simp only [seqValid, hfasta]
    have := fetchTry_all_fail seqValid (fun _ => ⟨st, text⟩) 3 0 (by simpa using hv)
    unfold fetchSequence
    rw [this]
  · unfold fetchCache
    rw [exMapM_error_of_mem lookup (xs ++ sq :: ys) sq
      (List.mem_append_right xs (List.mem_cons_self sq ys)) hl]
    rfl

/-- C10 witness: the malformed cached text "hello" (no FASTA match). -/
theorem c10_malformed_cache_aborts_witness :
    getSequenceFromCache (some "hello".toList) sq0 = .error ()
  ∧ fetchSequence sq0 (fun _ => ⟨200, "hello".toList⟩) = (3, none)
  ∧ fetchCache (fun _ => (.error () : Except Unit (Option (Seq × Text × Text))))
      ([] ++ sq0 :: []) = .error () :=
  have h := c10_malformed_cache_aborts "hello".toList sq0 rfl
  ⟨h.1, h.2.1 200, h.2.2 (fun _ => .error ()) [] [] rfl⟩

/-- A gene row lexicographically small in every relevant key. -/
def rowA : List Text := ["a".toList, "a".toList, "a".toList]

/-- A gene row lexicographically large in every relevant key. -/
def rowB : List Text := ["b".toList, "b".toList, "b".toList]

/-- C7 counterexample: the sequences job hands `genes_plain` to the CSV
writer in aggregation order with no sort: a cached gene row that is larger
than a fetched one (both in full lexicographic record order and in the
(organism, sequence_id) key) is emitted first, so the output is sorted by
neither key. -/
theorem c7_counterexample :
    seqJobOutput [[rowB]] [[rowA]] (fun _ _ => none) = [rowB, rowA]
  ∧ ¬ ([rowB, rowA] : List (List Text)).Sorted (· ≤ ·)
  ∧ ¬ (([rowB.getD 1 [], rowB.getD 2 []] : List Text) ≤
        [rowA.getD 1 [], rowA.getD 2 []]) := by
  refine ⟨rfl, fun h => ?_, by decide⟩
  have hle := (List.sorted_cons.mp h).1 rowA (by simp)
  exact absurd hle (by decide)

/-- A map whose function preserves the first three fields of every
3-field row keeps those fields at every position. -/
lemma mapRow_getD_take3 (f : List Text → List Text)
    (hf : ∀ g, g.length = 3 → (f g).take 3 = g) :
    ∀ l : List (List Text), (∀ g ∈ l, g.length = 3) →
      ∀ k : Nat, ((l.map f).getD k []).take 3 = l.getD k [] := by
  intro l
  induction l with
  | nil => intro _ k; cases k <;> rfl
  | cons a as ih =>
    intro hlen k
    cases k with
    | zero => exact hf a (hlen a (List.mem_cons_self a as))
    | succ k => exact ih (fun g hg => hlen g (List.mem_cons_of_mem a hg)) k

/-- C7 (amended): the organisms job sorts its rows by the first field, the
pathways job by the (organism, path_id) key pair, and the enzymes job by
full lexicographic record order; the sequences job applies no final sort —
its output rows stay in one-to-one positional correspondence with the
aggregation-ordered `genes_plain` (each output row extends its gene row
in place, so its first three fields are that gene row). -/
theorem c7_enzymes_sorted_sequences_unsorted :
    (∀ cached api : List (List (List Text)), (enzJobOutput cached api).Sorted (· ≤ ·))
  ∧ (∀ perOrganism : List (List (List Text)),
      (pathwaysJobOutput perOrganism).Sorted pathwayKeyLe)
  ∧ (∀ rows : List (List Text), (organismsJobOutput rows).Sorted organismKeyLe)
  ∧ ∀ (cached api : List (List (List Text)))
      (find : Text → Text → Option (Text × Text)),
      (∀ g ∈ (cached ++ api).flatten, g.length = 3) →
      ∀ k : Nat, ((seqJobOutput cached api find).getD k []).take 3 =
        ((cached ++ api).flatten).getD k [] := by
  refine ⟨fun cached api => List.sorted_insertionSort (· ≤ ·) _,
    fun perOrganism => List.sorted_insertionSort pathwayKeyLe _,
    fun rows => List.sorted_insertionSort organismKeyLe _,
    fun cached api find hlen => ?_⟩
  have hf : ∀ g : List Text, g.length = 3 → (mergeRow find g).take 3 = g := by
    intro g hg
    unfold mergeRow
    cases hfind : find (g.getD 1 []) (g.getD 2 []) with
    | none => exact List.take_of_length_le (le_of_eq hg)
    | some ds =>
      obtain ⟨d, s⟩ := ds
      show (g ++ [d, s]).take 3 = g
      rw [← hg, List.take_left]
  exact mapRow_getD_take3 (mergeRow find) hf ((cached ++ api).flatten) hlen

/-- C7 amended-claim witness: concrete instantiations for all four jobs. -/
theorem c7_enzymes_sorted_sequences_unsorted_witness :
    (enzJobOutput [[rowB]] [[rowA]]).Sorted (· ≤ ·)
  ∧ (pathwaysJobOutput [[rowB], [rowA]]).Sorted pathwayKeyLe
  ∧ (organismsJobOutput [rowB, rowA]).Sorted organismKeyLe
  ∧ ((seqJobOutput [[rowA]] [] (fun _ _ => none)).getD 0 []).take 3 =
      (([[rowA]] ++ []).flatten).getD 0 [] :=
  ⟨c7_enzymes_sorted_sequences_unsorted.1 [[rowB]] [[rowA]],
   c7_enzymes_sorted_sequences_unsorted.2.1 [[rowB], [rowA]],
   c7_enzymes_sorted_sequences_unsorted.2.2.1 [rowB, rowA],
   c7_enzymes_sorted_sequences_unsorted.2.2.2 [[rowA]] [] (fun _ _ => none)
     (by decide) 0⟩

/-- C8: the enzyme cache path used when storing (fetch_enzyme) and the one
used when looking up (_get_enzyme_from_cache) are the same function of
the work item — the dot-separated segments of the EC number except the
last become nested directories and the full EC number plus ".txt" is the
file name — and for ec_number "1.1.1.1" under root "/cache" it renders to
"/cache/1/1/1/1.1.1.1.txt". -/
theorem c8_enzyme_cache_path :
    (∀ (root : List Text) (ec : Text), fetchEnzymeSavePath root ec = enzymeLookupPath root ec)
  ∧ renderPath (fetchEnzymeSavePath ["/cache".toList] "1.1.1.1".toList) =
      "/cache/1/1/1/1.1.1.1.txt".toList :=
  ⟨fun _ _ => rfl, by decide⟩

end Kegg

